import Mathlib

/-!
Shallow embedding of `img_coral.py` (coral-growth simulator).

Python ints are modelled as `Int`, Python floats as `ℚ`, fallible
operations (indexing, `randrange` on an empty range, division by zero)
as `Except Err`.  The global random source (`random.random`,
`random.randrange`, `random.choice`) is modelled as an explicit oracle
`Rng` holding a stream of naturals (raw entropy for `randrange` /
`choice`) and a stream of rationals (successive `random()` draws); each
primitive consumes exactly one stream element, matching the points where
the Python code draws randomness (including short-circuit `and`, which
draws nothing when its left operand is false).
-/

/-- Python runtime errors that the embedded code can raise. -/
inductive Err where
  | indexError
  | valueError
  | zeroDivisionError
  deriving DecidableEq, Repr

/-- Oracle for the global random source: `nats` feeds `randrange` and
`choice` (reduced modulo the range size), `fracs` feeds `random()`
(conceptually values in `[0,1)`), `idx` is the next unread position. -/
structure Rng where
  nats : Nat → Nat
  fracs : Nat → ℚ
  idx : Nat

/-- Advance the oracle by one consumed draw. -/
def Rng.next (g : Rng) : Rng := ⟨g.nats, g.fracs, g.idx + 1⟩

/-- `random.random()`: one rational draw. -/
def Rng.random (g : Rng) : ℚ × Rng := (g.fracs g.idx, g.next)

/-- `random.randrange(a, b)`: uniform integer in `[a, b)`; raises
`ValueError` when the range is empty (`b ≤ a`). -/
def Rng.randrange (g : Rng) (a b : Int) : Except Err (Int × Rng) :=
  if b ≤ a then .error .valueError
  else .ok (a + (g.nats g.idx : Int) % (b - a), g.next)

/-- `random.choice(l)`: uniform element of `l`; raises `IndexError`
on an empty list. -/
def Rng.choice (g : Rng) (l : List α) : Except Err (α × Rng) :=
  match l with
  | [] => .error .indexError
  | a :: as =>
    .ok ((a :: as).get ⟨g.nats g.idx % (a :: as).length,
          Nat.mod_lt _ (Nat.succ_pos _)⟩, g.next)

/-- Python `%` on ints: sign follows the divisor (`Int.fmod`);
`ZeroDivisionError` when the divisor is zero. -/
def pymod (a b : Int) : Except Err Int :=
  if b = 0 then .error .zeroDivisionError else .ok (Int.fmod a b)

/-- Python `/` on numbers (true division): `ZeroDivisionError` on zero. -/
def pydiv (a b : ℚ) : Except Err ℚ :=
  if b = 0 then .error .zeroDivisionError else .ok (a / b)

/-- Resolve a Python sequence index of length `len`: non-negative
indices must be `< len`, negative indices count from the end. -/
def pyIndex (len : Nat) (i : Int) : Option Nat :=
  if 0 ≤ i then (if i < (len : Int) then some i.toNat else none)
  else if 0 ≤ i + (len : Int) then some (i + (len : Int)).toNat else none

/-- Python `l[i]` read. -/
def pyGet (l : List α) (i : Int) : Except Err α :=
  match pyIndex l.length i with
  | some n =>
    match l.get? n with
    | some a => .ok a
    | none => .error .indexError
  | none => .error .indexError

/-- Python `l[i] = a` write (returning the updated list). -/
def pySet (l : List α) (i : Int) (a : α) : Except Err (List α) :=
  match pyIndex l.length i with
  | some n => .ok (l.set n a)
  | none => .error .indexError

/-- `get_random_hue()`: `randrange(-60, 200) % 360` (lines 6–8). -/
def get_random_hue (g : Rng) : Except Err (Int × Rng) := do
  let (v, g) ← g.randrange (-60) 200
  let h ← pymod v 360
  return (h, g)

/-- `CoralCell(hue, brightness)` (lines 10–14). -/
structure CoralCell where
  hue : Int
  brightness : Int
  deriving DecidableEq, Repr

/-- `CoralCell.get_child(hue_diff, p_brighter)` (lines 16–24): mutate the
hue within `±hue_diff` mod 360; increment brightness with probability
`p_brighter` while below 100.  The draw of `random()` only happens when
`brightness < 100` (Python short-circuit `and`). -/
def CoralCell.get_child (c : CoralCell) (hue_diff : Int) (p_brighter : ℚ)
    (g : Rng) : Except Err (CoralCell × Rng) := do
  let (off, g) ← g.randrange (-hue_diff) (hue_diff + 1)
  let new_hue ← pymod (c.hue + off) 360
  if c.brightness < 100 then
    let (u, g) := g.random
    if u < p_brighter then return (⟨new_hue, c.brightness + 1⟩, g)
    else return (⟨new_hue, c.brightness⟩, g)
  else
    return (⟨new_hue, c.brightness⟩, g)

/-- The board state (fields of `Board.__init__`, lines 38–57). -/
structure Board where
  nb_rows : Int
  nb_cols : Int
  cells : List (List (Option CoralCell))
  step_nb : Int
  done : Bool
  drifters : List (Int × Int)
  hue_diff : Int
  p_brightness : ℚ
  p_down : ℚ
  p_right : ℚ

/-- `Board.make_drifter` (lines 100–102): `(0, randrange(nb_cols))`. -/
def Board.make_drifter (b : Board) (g : Rng) :
    Except Err ((Int × Int) × Rng) := do
  let (c, g) ← g.randrange 0 b.nb_cols
  return ((0, c), g)

/-- The drifter list built in `__init__` line 52: `nb_drifters`
successive `(0, randrange(nb_cols))` draws, left to right. -/
def mkDrifters (nb_cols : Int) : Nat → Rng → Except Err (List (Int × Int) × Rng)
  | 0, g => .ok ([], g)
  | n + 1, g => do
    let (c, g) ← g.randrange 0 nb_cols
    let (rest, g) ← mkDrifters nb_cols n g
    return ((0, c) :: rest, g)

/-- `Board.__init__` (lines 38–57).  Python list repetition and `range`
give empty collections for non-positive counts (`Int.toNat`), so the
only failing operation on integer inputs is the division
`p_brightness * 100 / nb_rows`.  The drifter draws happen before that
division, as in the source. -/
def mkBoard (nb_rows nb_cols : Int) (hue_diff : Int) (p_brightness : ℚ)
    (down_bias : ℚ) (right_bias : ℚ) (g : Rng) : Except Err (Board × Rng) := do
  let cells := List.replicate nb_rows.toNat
    (List.replicate nb_cols.toNat (none : Option CoralCell))
  let (drifters, g) ← mkDrifters nb_cols nb_cols.toNat g
  let p_b ← pydiv (p_brightness * 100) (nb_rows : ℚ)
  return ({ nb_rows := nb_rows, nb_cols := nb_cols, cells := cells,
            step_nb := 0, done := false, drifters := drifters,
            hue_diff := hue_diff, p_brightness := p_b,
            p_down := 1/4 + 3/4 * down_bias,
            p_right := 1/2 + right_bias / 2 }, g)

/-- Default `hue_diff` argument of `Board.__init__`. -/
def default_hue_diff : Int := 2

/-- Default `p_brightness` argument of `Board.__init__`. -/
def default_p_brightness : ℚ := 8/10

/-- Default `down_bias` argument of `Board.__init__`. -/
def default_down_bias : ℚ := 3/10

/-- Default `right_bias` argument of `Board.__init__`. -/
def default_right_bias : ℚ := 0

/-- Append a grid entry to the neighbour accumulator when it is truthy
(the `if cell: neighbours.append(cell)` pattern of lines 63–79). -/
def appendIfSome (l : List CoralCell) (oc : Option CoralCell) : List CoralCell :=
  match oc with
  | some c => l ++ [c]
  | none => l

/-- The `neighbours` list built by `Board.get_coral_neighbour`
(lines 62–79): up (when `row > 0`), down (when `row < nb_rows - 1`),
then the two horizontal entries at `(col ∓ 1) % nb_cols`, in source
order.  Each grid access follows Python evaluation order: the row list
is fetched before the column index is reduced modulo `nb_cols`. -/
def Board.neighbour_list (b : Board) (row col : Int) :
    Except Err (List CoralCell) := do
  let n0 : List CoralCell := []
  let n1 ← if row > 0 then do
      let r ← pyGet b.cells (row - 1)
      let cell ← pyGet r col
      pure (appendIfSome n0 cell)
    else pure n0
  let n2 ← if row < b.nb_rows - 1 then do
      let r ← pyGet b.cells (row + 1)
      let cell ← pyGet r col
      pure (appendIfSome n1 cell)
    else pure n1
  let r3 ← pyGet b.cells row
  let i3 ← pymod (col - 1) b.nb_cols
  let c3 ← pyGet r3 i3
  let n3 := appendIfSome n2 c3
  let r4 ← pyGet b.cells row
  let i4 ← pymod (col + 1) b.nb_cols
  let c4 ← pyGet r4 i4
  return appendIfSome n3 c4

/-- `Board.get_coral_neighbour` (lines 59–83): a uniformly random
element of the neighbour list, or `none` when the list is empty (in
which case no randomness is consumed). -/
def Board.get_coral_neighbour (b : Board) (row col : Int) (g : Rng) :
    Except Err (Option CoralCell × Rng) := do
  let ns ← b.neighbour_list row col
  if ns.isEmpty then return (none, g)
  else
    let (c, g) ← g.choice ns
    return (some c, g)

/-- `Board.drift` (lines 85–98): the three-stage decision cascade.
Each `random()` draw happens only when the structural guard before it
holds (Python short-circuit `and`). -/
def Board.drift (b : Board) (row col : Int) (g : Rng) :
    Except Err ((Int × Int) × Rng) :=
  let (goDown, g) :=
    if row < b.nb_rows - 1 then
      let (u, g1) := g.random
      (decide (u < b.p_down), g1)
    else (false, g)
  if goDown then .ok ((row + 1, col), g)
  else
    let (goUp, g) :=
      if row > 0 then
        let (u, g1) := g.random
        (decide (u < (333 : ℚ) / 1000), g1)
      else (false, g)
    if goUp then .ok ((row - 1, col), g)
    else
      let (u, g) := g.random
      if u < b.p_right then do
        let i ← pymod (col + 1) b.nb_cols
        return ((row, i), g)
      else do
        let i ← pymod (col - 1) b.nb_cols
        return ((row, i), g)

/-- The write `self.cells[row][col] = v` (lines 110 and 115). -/
def setCell (cells : List (List (Option CoralCell))) (row col : Int)
    (v : Option CoralCell) : Except Err (List (List (Option CoralCell))) := do
  let r ← pyGet cells row
  let r1 ← pySet r col v
  pySet cells row r1

/-- `Board.drifter_step` (lines 104–118): settle on a coral neighbour
(setting `done` when `row == 0`), else seed on the last row, else
drift.  Returns the replacement drifter and the updated board. -/
def Board.drifter_step (b : Board) (row col : Int) (g : Rng) :
    Except Err ((Int × Int) × Board × Rng) := do
  let (neighbour, g) ← b.get_coral_neighbour row col g
  match neighbour with
  | some n => do
    let (child, g) ← n.get_child b.hue_diff b.p_brightness g
    let cells ← setCell b.cells row col (some child)
    let done := if row = 0 then true else b.done
    let b1 := { b with cells := cells, done := done }
    let (d, g) ← b1.make_drifter g
    return (d, b1, g)
  | none =>
    if row = b.nb_rows - 1 then do
      let (h, g) ← get_random_hue g
      let cells ← setCell b.cells row col (some ⟨h, 0⟩)
      let b1 := { b with cells := cells }
      let (d, g) ← b1.make_drifter g
      return (d, b1, g)
    else do
      let (d, g) ← b.drift row col g
      return (d, b, g)

/-- The list comprehension of `Board.step` line 123: apply
`drifter_step` to each drifter left to right, threading the mutating
board state and collecting the replacement drifters. -/
def stepDrifters (b : Board) (ds : List (Int × Int)) (g : Rng) :
    Except Err (List (Int × Int) × Board × Rng) :=
  match ds with
  | [] => .ok ([], b, g)
  | (r, c) :: rest => do
    let (d, b1, g) ← b.drifter_step r c g
    let (ds1, b2, g) ← stepDrifters b1 rest g
    return (d :: ds1, b2, g)

/-- `Board.step` (lines 120–123): increment `step_nb`, then replace the
drifter list by the comprehension over the old drifters. -/
def Board.step (b : Board) (g : Rng) : Except Err (Board × Rng) := do
  let b1 := { b with step_nb := b.step_nb + 1 }
  let (ds, b2, g) ← stepDrifters b1 b1.drifters g
  return ({ b2 with drifters := ds }, g)

/-- Iterate `Board.step` `n` times. -/
def stepN : Nat → Board → Rng → Except Err (Board × Rng)
  | 0, b, g => .ok (b, g)
  | n + 1, b, g => do
    let (b1, g1) ← b.step g
    stepN n b1 g1

/-- Modelled from the spec: the single-drifter update of §4.2 under the
snapshot reading policy of §5 ("all drifter updates for a step are
computed against the grid state as it existed at the start of that
step").  Reads (neighbour lookup, seeding test, drift) use the
start-of-step board `b0`; writes (cells, `done`) go to the
accumulator board `b`, last write winning per cell. -/
def Board.drifter_step_snapshot (b0 : Board) (b : Board) (row col : Int)
    (g : Rng) : Except Err ((Int × Int) × Board × Rng) := do
  let (neighbour, g) ← b0.get_coral_neighbour row col g
  match neighbour with
  | some n => do
    let (child, g) ← n.get_child b0.hue_diff b0.p_brightness g
    let cells ← setCell b.cells row col (some child)
    let done := if row = 0 then true else b.done
    let b1 := { b with cells := cells, done := done }
    let (d, g) ← b0.make_drifter g
    return (d, b1, g)
  | none =>
    if row = b0.nb_rows - 1 then do
      let (h, g) ← get_random_hue g
      let cells ← setCell b.cells row col (some ⟨h, 0⟩)
      let b1 := { b with cells := cells }
      let (d, g) ← b0.make_drifter g
      return (d, b1, g)
    else do
      let (d, g) ← b0.drift row col g
      return (d, b, g)

/-- Modelled from the spec: fold the snapshot-reading drifter update
over the drifter list, all reads against the fixed board `b0`. -/
def stepDriftersSnapshot (b0 : Board) (b : Board) (ds : List (Int × Int))
    (g : Rng) : Except Err (List (Int × Int) × Board × Rng) :=
  match ds with
  | [] => .ok ([], b, g)
  | (r, c) :: rest => do
    let (d, b1, g) ← b0.drifter_step_snapshot b r c g
    let (ds1, b2, g) ← stepDriftersSnapshot b0 b1 rest g
    return (d :: ds1, b2, g)

/-- Modelled from the spec: the advance operation of §4.2 with the §5
snapshot policy — every drifter's update is computed against the grid
state as it existed at the start of the step. -/
def Board.step_snapshot (b : Board) (g : Rng) : Except Err (Board × Rng) := do
  let b1 := { b with step_nb := b.step_nb + 1 }
  let (ds, b2, g) ← stepDriftersSnapshot b1 b1 b1.drifters g
  return ({ b2 with drifters := ds }, g)

/-- `Board.print_cell` (lines 153–159): drifter marker takes precedence
over the settled-cell marker. -/
def Board.print_cell (b : Board) (row col : Int) : Except Err Char :=
  if b.drifters.contains (row, col) then .ok '.'
  else do
    let r ← pyGet b.cells row
    let cell ← pyGet r col
    match cell with
    | some _ => return '#'
    | none => return ' '

/-- Left-to-right effectful map in the `Except` monad (the traversal
of a Python generator comprehension). -/
def exceptMapM (f : α → Except Err β) : List α → Except Err (List β)
  | [] => .ok []
  | a :: as => do
    let b ← f a
    let bs ← exceptMapM f as
    return (b :: bs)

/-- `Board.__str__` (lines 144–151) as a row-major character grid. -/
def Board.render_text (b : Board) : Except Err (List (List Char)) :=
  exceptMapM (fun r : Nat =>
      exceptMapM (fun c : Nat => b.print_cell (r : Int) (c : Int))
        (List.range b.nb_cols.toNat))
    (List.range b.nb_rows.toNat)

deriving instance DecidableEq for Except

/-- A cell value within the documented ranges: hue in `[0, 360)`,
brightness in `[0, 100]`. -/
def CellOK (c : CoralCell) : Prop :=
  0 ≤ c.hue ∧ c.hue < 360 ∧ 0 ≤ c.brightness ∧ c.brightness ≤ 100

instance : DecidablePred CellOK := fun c => by
  unfold CellOK; infer_instance

/-- Every settled cell of the grid satisfies `CellOK`. -/
def GridOK (b : Board) : Prop :=
  ∀ r ∈ b.cells, ∀ oc ∈ r, ∀ c : CoralCell, oc = some c → CellOK c

instance : DecidablePred GridOK := fun b => by
  unfold GridOK; infer_instance

/-- The grid has exactly `nb_rows` rows of `nb_cols` entries each. -/
def ShapeOK (b : Board) : Prop :=
  b.cells.length = b.nb_rows.toNat ∧ ∀ r ∈ b.cells, r.length = b.nb_cols.toNat

instance : DecidablePred ShapeOK := fun b => by
  unfold ShapeOK; infer_instance

/-- Every drifter position is within the grid bounds. -/
def DriftersOK (b : Board) : Prop :=
  ∀ d ∈ b.drifters, 0 ≤ d.1 ∧ d.1 < b.nb_rows ∧ 0 ≤ d.2 ∧ d.2 < b.nb_cols

instance : DecidablePred DriftersOK := fun b => by
  unfold DriftersOK; infer_instance

/-- The safety invariant: positive dimensions, a non-negative hue
spread, a well-shaped grid, and in-bounds drifters. -/
def BoardInv (b : Board) : Prop :=
  0 < b.nb_rows ∧ 0 < b.nb_cols ∧ 0 ≤ b.hue_diff ∧ ShapeOK b ∧ DriftersOK b

instance : DecidablePred BoardInv := fun b => by
  unfold BoardInv; infer_instance

/-- An oracle whose streams are constantly zero. -/
def rngZero : Rng := ⟨fun _ => 0, fun _ => 0, 0⟩

/-- An oracle whose natural stream enumerates `0, 1, 2, …` and whose
rational stream is constantly zero. -/
def rngId : Rng := ⟨fun n => n, fun _ => 0, 0⟩

/-- Construct a board with the Python default optional arguments. -/
def mkBoardDefault (nb_rows nb_cols : Int) (g : Rng) : Except Err (Board × Rng) :=
  mkBoard nb_rows nb_cols default_hue_diff default_p_brightness
    default_down_bias default_right_bias g

/-- A default 1×1 board advanced `n` steps from oracle `g`. -/
def board1x1After (n : Nat) (g : Rng) : Except Err (Board × Rng) := do
  let (b, g1) ← mkBoardDefault 1 1 g
  stepN n b g1

/-- A default 2×2 board advanced `n` steps from the enumerating oracle. -/
def board2x2After (n : Nat) : Except Err (Board × Rng) := do
  let (b, g1) ← mkBoardDefault 2 2 rngId
  stepN n b g1

/-- The default 2×2 board advanced one step, then advanced once more
with the spec-modelled snapshot reading policy. -/
def board2x2SnapshotStep2 : Except Err (Board × Rng) := do
  let (b1, g1) ← board2x2After 1
  b1.step_snapshot g1

/-- A 1×1 board constructed with `hue_diff = -1` (accepted without
validation) and advanced `n` steps. -/
def negHueDiffAfter (n : Nat) : Except Err (Board × Rng) := do
  let (b, g1) ← mkBoard 1 1 (-1) default_p_brightness default_down_bias
    default_right_bias rngZero
  stepN n b g1

/-- A 1-column board holding one settled cell, for the wrap-around
self-neighbour behaviour. -/
def boardOneCol : Board :=
  ⟨1, 1, [[some ⟨10, 5⟩]], 0, false, [], 2, 40, 1/2, 1/2⟩

/-- A 2-column board where (0,0) has a settled vertical neighbour at
(1,0) and a settled horizontal neighbour at (0,1): the horizontal cell
is reachable both as left and as right neighbour. -/
def boardTwoCols : Board :=
  ⟨2, 2, [[none, some ⟨20, 7⟩], [some ⟨10, 5⟩, none]], 0, false, [], 2, 40, 1/2, 1/2⟩

/-- The board `mkBoardDefault 1 1` produces (any oracle): a 1×1 empty
grid with one drifter at (0,0); `p_brightness` scales to `0.8*100/1 =
80`, `p_down` to `19/40`, `p_right` to `1/2`. -/
def board1x1init : Board :=
  ⟨1, 1, [[none]], 0, false, [(0, 0)], 2, 80, 19/40, 1/2⟩

/-- The 1×1 board after its first advance: a root cell of hue `h` was
seeded at (0,0), `done` still false, replacement drifter at (0,0). -/
def board1x1seeded (h : Int) : Board :=
  ⟨1, 1, [[some ⟨h, 0⟩]], 1, false, [(0, 0)], 2, 80, 19/40, 1/2⟩

/-- Modelled from the spec: the drift-move decision cascade of §4.2 —
(1) when not on the last row, move down with probability `p_down`;
(2) else or on failure, when not on row 0, move up with probability
0.333; (3) else or on failure, move right `(col+1) mod nb_cols` with
probability `p_right`, otherwise left `(col-1) mod nb_cols`.  Exactly
one branch resolves, each check uses a fresh draw, and no branch can
fail. -/
def driftSpec (b : Board) (row col : Int) (g : Rng) : (Int × Int) × Rng :=
  let (tryDown, g) :=
    if row ≠ b.nb_rows - 1 then
      let (u, g1) := g.random
      (decide (u < b.p_down), g1)
    else (false, g)
  if tryDown then ((row + 1, col), g)
  else
    let (tryUp, g) :=
      if row > 0 then
        let (u, g1) := g.random
        (decide (u < (333 : ℚ) / 1000), g1)
      else (false, g)
    if tryUp then ((row - 1, col), g)
    else
      let (u, g) := g.random
      if u < b.p_right then ((row, (col + 1) % b.nb_cols), g)
      else ((row, (col - 1) % b.nb_cols), g)

/-- The grid entry at an in-bounds position, as a total accessor
(`none` when out of bounds or empty). -/
def entryAt (b : Board) (row col : Int) : Option CoralCell :=
  ((b.cells.get? row.toNat).bind fun r => r.get? col.toNat).join

/-- The cell value is one of the grid's entries. -/
def cellInGrid (b : Board) (c : CoralCell) : Prop :=
  ∃ r ∈ b.cells, some c ∈ r

/-- The grid after writing `v` at an in-bounds position (identity when
the row is out of bounds), as a total description of a successful
`setCell`. -/
def gridWrite (cells : List (List (Option CoralCell))) (row col : Int)
    (v : Option CoralCell) : List (List (Option CoralCell)) :=
  match cells.get? row.toNat with
  | some r => cells.set row.toNat (r.set col.toNat v)
  | none => cells

section PrimitiveLemmas

theorem pyIndex_of_nonneg_lt {len : Nat} {i : Int} (h0 : 0 ≤ i)
    (h : i < (len : Int)) : pyIndex len i = some i.toNat := by
  unfold pyIndex
  simp [h0, h]

theorem pyGet_eq_ok {α} {l : List α} {i : Int} (h0 : 0 ≤ i)
    (h : i < (l.length : Int)) :
    ∃ hlt : i.toNat < l.length, pyGet l i = .ok (l.get ⟨i.toNat, hlt⟩) := by
  have hlt : i.toNat < l.length := by omega
  refine ⟨hlt, ?_⟩
  unfold pyGet
  rw [pyIndex_of_nonneg_lt h0 h]
  simp [List.get?_eq_get hlt, List.getElem?_eq_getElem hlt]

theorem pyGet_mem {α} {l : List α} {i : Int} {a : α}
    (h : pyGet l i = .ok a) : a ∈ l := by
  unfold pyGet at h
  split at h
  next n heq =>
    split at h
    next b hget => cases h; exact List.get?_mem hget
    next => exact absurd h (by simp)
  next => exact absurd h (by simp)

theorem pySet_eq_ok {α} {l : List α} {i : Int} {a : α} (h0 : 0 ≤ i)
    (h : i < (l.length : Int)) : pySet l i a = .ok (l.set i.toNat a) := by
  unfold pySet
  rw [pyIndex_of_nonneg_lt h0 h]

theorem pySet_ok_shape {α} {l l' : List α} {i : Int} {a : α}
    (h : pySet l i a = .ok l') : ∃ n, l' = l.set n a := by
  unfold pySet at h
  split at h
  next n heq => cases h; exact ⟨n, rfl⟩
  next => exact absurd h (by simp)

theorem pymod_pos_eq {a m : Int} (hm : 0 < m) :
    pymod a m = .ok (a % m) := by
  unfold pymod
  rw [if_neg (by omega), Int.fmod_eq_emod a (le_of_lt hm)]

theorem pymod_pos_bounds {a m : Int} (hm : 0 < m) :
    0 ≤ a % m ∧ a % m < m :=
  ⟨Int.emod_nonneg a (by omega), Int.emod_lt_of_pos a hm⟩

theorem randrange_eq_ok {a b : Int} (g : Rng) (h : a < b) :
    g.randrange a b = .ok (a + (g.nats g.idx : Int) % (b - a), g.next) := by
  unfold Rng.randrange
  rw [if_neg (by omega)]

theorem randrange_ok_bounds {a b : Int} (g : Rng) (h : a < b) :
    a ≤ a + (g.nats g.idx : Int) % (b - a) ∧
      a + (g.nats g.idx : Int) % (b - a) < b := by
  have h1 : 0 ≤ (g.nats g.idx : Int) % (b - a) :=
    Int.emod_nonneg _ (by omega)
  have h2 : (g.nats g.idx : Int) % (b - a) < b - a :=
    Int.emod_lt_of_pos _ (by omega)
  omega

theorem choice_eq_ok {α} (g : Rng) (x : α) (xs : List α) :
    g.choice (x :: xs) = .ok ((x :: xs).get
      ⟨g.nats g.idx % (x :: xs).length, Nat.mod_lt _ (Nat.succ_pos _)⟩,
      g.next) := rfl

theorem choice_mem {α} {g g' : Rng} {l : List α} {a : α}
    (h : g.choice l = .ok (a, g')) : a ∈ l := by
  unfold Rng.choice at h
  cases l with
  | nil => exact absurd h (by simp)
  | cons x xs =>
    cases h
    exact List.get_mem _ _ _

@[simp] theorem except_ok_bind {ε α β} (a : α) (f : α → Except ε β) :
    (Except.ok a : Except ε α) >>= f = f a := rfl

@[simp] theorem except_error_bind {ε α β} (e : ε) (f : α → Except ε β) :
    (Except.error e : Except ε α) >>= f = Except.error e := rfl

@[simp] theorem except_pure_eq_ok {ε α} (a : α) :
    (pure a : Except ε α) = Except.ok a := rfl

@[simp] theorem except_map_ok {ε α β} (f : α → β) (a : α) :
    (Except.ok a : Except ε α).map f = Except.ok (f a) := rfl

@[simp] theorem except_map_error {ε α β} (f : α → β) (e : ε) :
    (Except.error e : Except ε α).map f = Except.error e := rfl

end PrimitiveLemmas

section ConstructionLemmas

theorem mkDrifters_ok (nc : Int) (n : Nat) : ∀ g : Rng, n ≤ nc.toNat →
    ∃ l g', mkDrifters nc n g = .ok (l, g') ∧ l.length = n ∧
      ∀ d ∈ l, d.1 = 0 ∧ 0 ≤ d.2 ∧ d.2 < nc := by
  induction n with
  | zero => exact fun g _ => ⟨[], g, rfl, rfl, by simp⟩
  | succ n ih =>
    intro g h
    have hnc : (0 : Int) < nc := by omega
    obtain ⟨l, g', hmk, hlen, hall⟩ := ih g.next (by omega)
    have hr := @randrange_eq_ok 0 nc g hnc
    refine ⟨(0, (g.nats g.idx : Int) % (nc - 0)) :: l, g', ?_, by simp [hlen], ?_⟩
    · simp only [mkDrifters, hr, except_ok_bind, hmk, except_pure_eq_ok,
        zero_add]
    · intro d hd
      rcases List.mem_cons.mp hd with h1 | h1
      · have hb := @randrange_ok_bounds 0 nc g hnc
        subst h1
        refine ⟨rfl, by omega, by omega⟩
      · exact hall d h1

theorem mkDrifters_errorFree (nc : Int) (g : Rng) :
    ∃ l g', mkDrifters nc nc.toNat g = .ok (l, g') := by
  obtain ⟨l, g', hmk, -, -⟩ := mkDrifters_ok nc nc.toNat g le_rfl
  exact ⟨l, g', hmk⟩

end ConstructionLemmas

section GridLemmas

@[simp] theorem appendIfSome_none (l : List CoralCell) :
    appendIfSome l none = l := rfl

@[simp] theorem appendIfSome_some (l : List CoralCell) (c : CoralCell) :
    appendIfSome l (some c) = l ++ [c] := rfl

theorem entry_spec (b : Board) (row col : Int) (hsh : ShapeOK b)
    (hr0 : 0 ≤ row) (hr1 : row < b.nb_rows) (hc0 : 0 ≤ col)
    (hc1 : col < b.nb_cols) :
    ∃ r, pyGet b.cells row = .ok r ∧ r ∈ b.cells ∧
      pyGet r col = .ok (entryAt b row col) := by
  obtain ⟨hclen, hrlen⟩ := hsh
  have hrow : row < (b.cells.length : Int) := by rw [hclen]; omega
  obtain ⟨hlt, hget⟩ := pyGet_eq_ok hr0 hrow
  have hrmem : b.cells.get ⟨row.toNat, hlt⟩ ∈ b.cells := List.get_mem _ _ _
  have hrl : (b.cells.get ⟨row.toNat, hlt⟩).length = b.nb_cols.toNat :=
    hrlen _ hrmem
  have hcol : col < ((b.cells.get ⟨row.toNat, hlt⟩).length : Int) := by
    rw [hrl]; omega
  obtain ⟨hlt2, hget2⟩ := pyGet_eq_ok hc0 hcol
  refine ⟨_, hget, hrmem, ?_⟩
  rw [hget2]
  congr 1
  have hlt2a : col.toNat < b.cells[row.toNat].length := hlt2
  simp [entryAt, List.getElem?_eq_getElem hlt, List.getElem?_eq_getElem hlt2a]

theorem neighbour_list_eq (b : Board) (row col : Int) (hsh : ShapeOK b)
    (hr0 : 0 ≤ row) (hr1 : row < b.nb_rows) (hc0 : 0 ≤ col)
    (hc1 : col < b.nb_cols) :
    b.neighbour_list row col = .ok
      (appendIfSome (appendIfSome (appendIfSome (appendIfSome []
        (if 0 < row then entryAt b (row - 1) col else none))
        (if row < b.nb_rows - 1 then entryAt b (row + 1) col else none))
        (entryAt b row ((col - 1) % b.nb_cols)))
        (entryAt b row ((col + 1) % b.nb_cols))) := by
  have hncols : (0 : Int) < b.nb_cols := by omega
  have hm1 := @pymod_pos_bounds (col - 1) b.nb_cols hncols
  have hm2 := @pymod_pos_bounds (col + 1) b.nb_cols hncols
  obtain ⟨r3, hg3, hm3, hge3⟩ :=
    entry_spec b row ((col - 1) % b.nb_cols) hsh hr0 hr1 hm1.1 hm1.2
  obtain ⟨r4, hg4, hm4, hge4⟩ :=
    entry_spec b row ((col + 1) % b.nb_cols) hsh hr0 hr1 hm2.1 hm2.2
  have hr43 : r4 = r3 := by rw [hg3] at hg4; cases hg4; rfl
  subst hr43
  unfold Board.neighbour_list
  by_cases h1 : row > 0 <;> by_cases h2 : row < b.nb_rows - 1
  · obtain ⟨ru, hgu, hmu, hgeu⟩ :=
      entry_spec b (row - 1) col hsh (by omega) (by omega) hc0 hc1
    obtain ⟨rd, hgd, hmd, hged⟩ :=
      entry_spec b (row + 1) col hsh (by omega) (by omega) hc0 hc1
    simp [h1, h2, hgu, hgeu, hgd, hged, pymod_pos_eq hncols, hg3, hge3, hge4]
  · obtain ⟨ru, hgu, hmu, hgeu⟩ :=
      entry_spec b (row - 1) col hsh (by omega) (by omega) hc0 hc1
    simp [h1, h2, hgu, hgeu, pymod_pos_eq hncols, hg3, hge3, hge4]
  · obtain ⟨rd, hgd, hmd, hged⟩ :=
      entry_spec b (row + 1) col hsh (by omega) (by omega) hc0 hc1
    simp [h1, h2, hgd, hged, pymod_pos_eq hncols, hg3, hge3, hge4]
  · simp [h1, h2, pymod_pos_eq hncols, hg3, hge3, hge4]

end GridLemmas

section NeighbourLemmas

theorem get_coral_neighbour_nil {b : Board} {row col : Int} (g : Rng)
    (h : b.neighbour_list row col = .ok []) :
    b.get_coral_neighbour row col g = .ok (none, g) := by
  unfold Board.get_coral_neighbour
  rw [h]
  simp

theorem get_coral_neighbour_cons {b : Board} {row col : Int} (g : Rng)
    {x : CoralCell} {xs : List CoralCell}
    (h : b.neighbour_list row col = .ok (x :: xs)) :
    b.get_coral_neighbour row col g = .ok (some ((x :: xs).get
      ⟨g.nats g.idx % (x :: xs).length, Nat.mod_lt _ (Nat.succ_pos _)⟩),
      g.next) := by
  unfold Board.get_coral_neighbour
  rw [h]
  simp [Rng.choice]

theorem get_coral_neighbour_mem {b : Board} {row col : Int} {g g' : Rng}
    {c : CoralCell} (h : b.get_coral_neighbour row col g = .ok (some c, g')) :
    ∃ ns, b.neighbour_list row col = .ok ns ∧ c ∈ ns := by
  unfold Board.get_coral_neighbour at h
  cases hns : b.neighbour_list row col with
  | error e => rw [hns] at h; exact absurd h (by simp)
  | ok ns =>
    rw [hns] at h
    simp only [except_ok_bind] at h
    cases ns with
    | nil => simp at h
    | cons x xs =>
      simp [Rng.choice] at h
      refine ⟨x :: xs, rfl, ?_⟩
      rw [← h.1]
      exact List.get_mem _ _ _

theorem entryAt_mem {b : Board} {row col : Int} {c : CoralCell}
    (h : entryAt b row col = some c) : cellInGrid b c := by
  unfold entryAt at h
  cases h1 : b.cells.get? row.toNat with
  | none => rw [h1] at h; simp at h
  | some r =>
    rw [h1] at h
    simp only [Option.some_bind] at h
    cases h2 : r.get? col.toNat with
    | none => rw [h2] at h; simp at h
    | some oc =>
      rw [h2] at h
      cases oc with
      | none => simp at h
      | some c2 =>
        simp at h
        subst h
        exact ⟨r, List.get?_mem h1, List.get?_mem h2⟩

end NeighbourLemmas

/-- C10: with `nb_cols = 1` the two horizontal probes of the neighbour
lookup wrap to the cell's own column, so a settled cell at the looked-up
position appears (twice) among the candidates — it counts as its own
coral neighbour; with `nb_cols = 2` the single horizontal neighbour is
collected twice; and the final choice is uniform over collected entries,
giving a doubly-collected cell twice the weight, as witnessed on
`boardTwoCols` where the horizontal cell is returned for two of the
three residues of the draw. -/
theorem C10_wrap_weights :
    (∀ (b : Board) (row col : Int), b.nb_cols = 1 → ShapeOK b →
      0 ≤ row → row < b.nb_rows → 0 ≤ col → col < b.nb_cols →
      ∀ c : CoralCell, entryAt b row col = some c →
        ∃ pre, b.neighbour_list row col = .ok (pre ++ [c, c])) ∧
    (∀ (b : Board) (row col : Int), b.nb_cols = 2 → ShapeOK b →
      0 ≤ row → row < b.nb_rows → 0 ≤ col → col < b.nb_cols →
      ∀ c : CoralCell, entryAt b row ((col + 1) % 2) = some c →
        ∃ pre, b.neighbour_list row col = .ok (pre ++ [c, c])) ∧
    (∀ g : Rng, boardTwoCols.get_coral_neighbour 0 0 g =
      .ok (some (if g.nats g.idx % 3 = 0 then ⟨10, 5⟩ else ⟨20, 7⟩),
        g.next)) := by
  refine ⟨?_, ?_, ?_⟩
  · intro b row col h1 hsh hr0 hr1 hc0 hc1 c hc
    have hcol : col = 0 := by omega
    have h3 : (col - 1) % b.nb_cols = col := by rw [h1]; omega
    have h4 : (col + 1) % b.nb_cols = col := by rw [h1]; omega
    refine ⟨appendIfSome (appendIfSome []
      (if 0 < row then entryAt b (row - 1) col else none))
      (if row < b.nb_rows - 1 then entryAt b (row + 1) col else none), ?_⟩
    rw [neighbour_list_eq b row col hsh hr0 hr1 hc0 hc1, h3, h4, hc]
    simp [List.append_assoc]
  · intro b row col h2 hsh hr0 hr1 hc0 hc1 c hc
    have h3 : (col - 1) % b.nb_cols = (col + 1) % 2 := by
      rw [h2]
      have : col + 1 = col - 1 + 2 * 1 := by ring
      rw [← Int.add_mul_emod_self_left, ← this]
    have h4 : (col + 1) % b.nb_cols = (col + 1) % 2 := by rw [h2]
    refine ⟨appendIfSome (appendIfSome []
      (if 0 < row then entryAt b (row - 1) col else none))
      (if row < b.nb_rows - 1 then entryAt b (row + 1) col else none), ?_⟩
    rw [neighbour_list_eq b row col hsh hr0 hr1 hc0 hc1, h3, h4, hc]
    simp [List.append_assoc]
  · intro g
    have hns : boardTwoCols.neighbour_list 0 0 = .ok [⟨10, 5⟩, ⟨20, 7⟩, ⟨20, 7⟩] := by
      with_unfolding_all decide
    rw [get_coral_neighbour_cons g hns]
    congr 2
    have hlt : g.nats g.idx % 3 < 3 := Nat.mod_lt _ (by omega)
    rcases hcase : g.nats g.idx % 3 with _ | n
    · simp [hcase, List.get]
    · rcases n with _ | n
      · simp [hcase, List.get]
      · have : n = 0 := by omega
        subst this
        simp [hcase, List.get]

/-- Witness for C10: the 1-column part applied to `boardOneCol` at
(0,0), whose settled cell is its own double horizontal neighbour. -/
theorem C10_wrap_weights_witness :
    boardOneCol.nb_cols = 1 ∧ ShapeOK boardOneCol ∧
    entryAt boardOneCol 0 0 = some ⟨10, 5⟩ ∧
    ∃ pre, boardOneCol.neighbour_list 0 0 = .ok (pre ++ [⟨10, 5⟩, ⟨10, 5⟩]) :=
  ⟨rfl, by decide, by with_unfolding_all decide,
    C10_wrap_weights.1 boardOneCol 0 0 rfl (by decide) (by decide) (by decide)
      (by decide) (by decide) ⟨10, 5⟩ (by with_unfolding_all decide)⟩

/-- C2 counterexample: construction succeeds for `nb_cols = 0` and for
`nb_rows = -1` (both non-positive), refuting "construction fails
whenever nb_rows or nb_cols is not a positive integer". -/
theorem C2_counterexample :
    (mkBoardDefault 1 0 rngZero).map (fun p => p.1.drifters) = .ok [] ∧
    (mkBoardDefault (-1) 5 rngZero).map (fun p => p.1.step_nb) = .ok 0 := by
  constructor <;> with_unfolding_all decide

/-- C2 (amended): over integer parameters, construction fails exactly
when `nb_rows = 0` — the division in `p_brightness * 100 / nb_rows` —
and no other validation occurs: any `nb_cols` (zero or negative
included) and any negative `nb_rows` are accepted. -/
theorem C2_construction_iff (nr nc hd : Int) (pb db rb : ℚ) (g : Rng) :
    (∃ r, mkBoard nr nc hd pb db rb g = .ok r) ↔ nr ≠ 0 := by
  unfold mkBoard
  obtain ⟨l, g', hmk⟩ := mkDrifters_errorFree nc g
  rw [hmk]
  simp only [except_ok_bind]
  unfold pydiv
  by_cases h : (nr : ℚ) = 0
  · rw [if_pos h]
    simp only [except_error_bind]
    constructor
    · rintro ⟨r, hr⟩; cases hr
    · intro hnr; exact absurd (Int.cast_eq_zero.mp h) hnr
  · rw [if_neg h]
    simp only [except_ok_bind]
    constructor
    · intro _; exact fun hnr => h (by rw [hnr]; simp)
    · intro _; exact ⟨_, rfl⟩

/-- C1 counterexample: on the 1×1 board the first advance does seed a
root cell at (0,0), but `done` is still `false` afterwards — the seed
branch of `drifter_step` never sets `done`. -/
theorem C1_counterexample :
    (board1x1After 1 rngZero).map (fun p => (p.1.done, p.1.cells)) =
      .ok (false, [[some ⟨300, 0⟩]]) := by
  with_unfolding_all decide

/-- C3 counterexample: on a 2×2 board whose two drifters both reach the
last row, the code's step lets the second drifter see the cell the
first drifter seeded in the same step (it settles, brightness 1), while
the spec-modelled start-of-step snapshot semantics would make it seed a
fresh root (brightness 0): the resulting grids differ. -/
theorem C3_counterexample :
    (board2x2After 2).map (fun p => p.1.cells) =
      .ok [[none, none], [some ⟨304, 0⟩, some ⟨304, 1⟩]] ∧
    board2x2SnapshotStep2.map (fun p => p.1.cells) =
      .ok [[none, none], [some ⟨304, 0⟩, some ⟨306, 0⟩]] ∧
    (board2x2After 2).map (fun p => p.1.cells) ≠
      board2x2SnapshotStep2.map (fun p => p.1.cells) := by
  refine ⟨?_, ?_, ?_⟩ <;> with_unfolding_all decide

/-- C9 counterexample: a board built with `nb_rows = nb_cols = 1 > 0`
but `hue_diff = -1` (construction performs no validation) runs one
advance fine, then fails with a `ValueError` on the second advance:
the settle branch calls `randrange(1, 0)`, an empty range.  So validity
of the dimensions alone does not make stepping error-free. -/
theorem C9_counterexample :
    (negHueDiffAfter 1).map (fun p => p.1.done) = .ok false ∧
    (negHueDiffAfter 2).map (fun p => p.1.done) = .error .valueError := by
  constructor <;> with_unfolding_all decide

theorem C5_drift_cascade (b : Board) (row col : Int) (g : Rng)
    (hrow : row < b.nb_rows) (hcols : 0 < b.nb_cols) :
    b.drift row col g = .ok (driftSpec b row col g) := by
  have hpm1 : pymod (col + 1) b.nb_cols = .ok ((col + 1) % b.nb_cols) :=
    pymod_pos_eq hcols
  have hpm2 : pymod (col - 1) b.nb_cols = .ok ((col - 1) % b.nb_cols) :=
    pymod_pos_eq hcols
  unfold Board.drift driftSpec
  simp only [Rng.random]
  by_cases h1 : row < b.nb_rows - 1
  · have h1b : row ≠ b.nb_rows - 1 := by omega
    rw [if_pos h1, if_pos h1b]
    by_cases h2 : g.fracs g.idx < b.p_down
    · simp [h2]
    · by_cases h3 : row > 0
      · by_cases h4 : g.next.fracs g.next.idx < (333 : ℚ) / 1000
        · simp [h2, h3, h4]
        · by_cases h5 : g.next.next.fracs g.next.next.idx < b.p_right <;>
            simp [h2, h3, h4, h5, hpm1, hpm2]
      · by_cases h5 : g.next.fracs g.next.idx < b.p_right <;>
          simp [h2, h3, h5, hpm1, hpm2]
  · have h1b : ¬(row ≠ b.nb_rows - 1) := by omega
    rw [if_neg h1, if_neg h1b]
    by_cases h3 : row > 0
    · by_cases h4 : g.fracs g.idx < (333 : ℚ) / 1000
      · simp [h3, h4]
      · by_cases h5 : g.next.fracs g.next.idx < b.p_right <;>
          simp [h3, h4, h5, hpm1, hpm2]
    · by_cases h5 : g.fracs g.idx < b.p_right <;>
        simp [h3, h5, hpm1, hpm2]

/-- Witness for C5 at a concrete board, position and oracle. -/
theorem C5_drift_cascade_witness :
    (0 : Int) < boardTwoCols.nb_rows ∧ (0 : Int) < boardTwoCols.nb_cols ∧
    boardTwoCols.drift 0 0 rngZero = .ok (driftSpec boardTwoCols 0 0 rngZero) :=
  ⟨by decide, by decide,
    C5_drift_cascade boardTwoCols 0 0 rngZero (by decide) (by decide)⟩

theorem get_child_eq (c : CoralCell) (hue_diff : Int) (p : ℚ) (g : Rng)
    (hhd : 0 ≤ hue_diff) :
    c.get_child hue_diff p g =
      .ok (⟨(c.hue + (-hue_diff +
              (g.nats g.idx : Int) % (hue_diff + 1 - -hue_diff))) % 360,
            if c.brightness < 100 then
              (if g.fracs (g.idx + 1) < p then c.brightness + 1
               else c.brightness)
            else c.brightness⟩,
           if c.brightness < 100 then g.next.next else g.next) := by
  have h : -hue_diff < hue_diff + 1 := by omega
  have hr := @randrange_eq_ok (-hue_diff) (hue_diff + 1) g h
  unfold CoralCell.get_child
  rw [hr]
  simp only [except_ok_bind]
  rw [pymod_pos_eq (by omega : (0 : Int) < 360)]
  simp only [except_ok_bind]
  by_cases hbr : c.brightness < 100
  · by_cases hu : g.fracs (g.idx + 1) < p <;>
      simp [hbr, hu, Rng.random, Rng.next]
  · simp [hbr]

/-- C6: for a non-negative spread, derive-child returns a new cell whose
hue is the parent hue plus a random offset in `[-hue_diff, hue_diff]`,
reduced mod 360, and whose brightness is parent brightness + 1 exactly
when the parent is below 100 and the fresh draw is below `p_brighter`,
otherwise the parent brightness unchanged (so brightness never grows
past 100); the parent value itself is immutable. -/
theorem C6_get_child (c : CoralCell) (hue_diff : Int) (p : ℚ) (g : Rng)
    (hhd : 0 ≤ hue_diff) :
    ∃ off : Int, -hue_diff ≤ off ∧ off ≤ hue_diff ∧
      c.get_child hue_diff p g =
        .ok (⟨(c.hue + off) % 360,
              if c.brightness < 100 then
                (if g.fracs (g.idx + 1) < p then c.brightness + 1
                 else c.brightness)
              else c.brightness⟩,
             if c.brightness < 100 then g.next.next else g.next) := by
  have h : -hue_diff < hue_diff + 1 := by omega
  have hb := @randrange_ok_bounds (-hue_diff) (hue_diff + 1) g h
  exact ⟨-hue_diff + (g.nats g.idx : Int) % (hue_diff + 1 - -hue_diff),
    by omega, by omega, get_child_eq c hue_diff p g hhd⟩

/-- Witness for C6 at a concrete parent cell, spread and oracle. -/
theorem C6_get_child_witness :
    (0 : Int) ≤ 2 ∧
    ∃ off : Int, -2 ≤ off ∧ off ≤ 2 ∧
      CoralCell.get_child ⟨10, 5⟩ 2 (1/2) rngZero =
        .ok (⟨(10 + off) % 360,
              if (5 : Int) < 100 then
                (if rngZero.fracs (rngZero.idx + 1) < 1/2 then 5 + 1
                 else 5)
              else 5⟩,
             if (5 : Int) < 100 then rngZero.next.next else rngZero.next) :=
  ⟨by decide, C6_get_child ⟨10, 5⟩ 2 (1/2) rngZero (by decide)⟩

theorem stepDrifters_length : ∀ (ds : List (Int × Int)) (b : Board) (g : Rng)
    (r : List (Int × Int) × Board × Rng),
    stepDrifters b ds g = .ok r → r.1.length = ds.length := by
  intro ds
  induction ds with
  | nil =>
    intro b g r h
    cases h
    rfl
  | cons d rest ih =>
    intro b g r h
    obtain ⟨rr, cc⟩ := d
    unfold stepDrifters at h
    cases hd : b.drifter_step rr cc g with
    | error e => rw [hd] at h; exact absurd h (by simp)
    | ok t =>
      obtain ⟨d1, b1, g1⟩ := t
      rw [hd] at h
      simp only [except_ok_bind] at h
      cases hrest : stepDrifters b1 rest g1 with
      | error e => rw [hrest] at h; exact absurd h (by simp)
      | ok t2 =>
        obtain ⟨ds1, b2, g2⟩ := t2
        rw [hrest] at h
        simp only [except_ok_bind, except_pure_eq_ok] at h
        cases h
        simp [ih _ _ _ hrest]

theorem step_eq (b : Board) (g : Rng) :
    b.step g =
      (stepDrifters { b with step_nb := b.step_nb + 1 } b.drifters g).bind
        (fun t => .ok ({ t.2.1 with drifters := t.1 }, t.2.2)) := by
  unfold Board.step
  dsimp only
  cases stepDrifters { b with step_nb := b.step_nb + 1 } b.drifters g with
  | error e => rfl
  | ok t =>
    obtain ⟨ds, b2, g2⟩ := t
    rfl

theorem step_drifters_length {b : Board} {g : Rng} {b' : Board} {g' : Rng}
    (h : b.step g = .ok (b', g')) :
    b'.drifters.length = b.drifters.length := by
  rw [step_eq] at h
  cases hsd : stepDrifters { b with step_nb := b.step_nb + 1 } b.drifters g with
  | error e => rw [hsd] at h; exact absurd h (by simp [Except.bind])
  | ok t =>
    obtain ⟨ds1, b2, g2⟩ := t
    rw [hsd] at h
    simp only [Except.bind] at h
    cases h
    exact stepDrifters_length _ _ _ _ hsd

theorem stepN_drifters_length : ∀ (n : Nat) (b : Board) (g : Rng)
    (b' : Board) (g' : Rng), stepN n b g = .ok (b', g') →
    b'.drifters.length = b.drifters.length := by
  intro n
  induction n with
  | zero => intro b g b' g' h; cases h; rfl
  | succ n ih =>
    intro b g b' g' h
    unfold stepN at h
    cases hs : b.step g with
    | error e => rw [hs] at h; exact absurd h (by simp)
    | ok t =>
      obtain ⟨b1, g1⟩ := t
      rw [hs] at h
      simp only [except_ok_bind] at h
      rw [ih _ _ _ _ h, step_drifters_length hs]

/-- C8: the drifter collection has exactly `nb_cols` elements when a
board with positive `nb_cols` is constructed, and every advance (and
hence every sequence of advances) preserves the collection's size. -/
theorem C8_drifter_count :
    (∀ (nr nc hd : Int) (pb db rb : ℚ) (g : Rng) (b : Board) (g' : Rng),
      0 < nc → mkBoard nr nc hd pb db rb g = .ok (b, g') →
      (b.drifters.length : Int) = nc) ∧
    (∀ (n : Nat) (b : Board) (g : Rng) (b' : Board) (g' : Rng),
      stepN n b g = .ok (b', g') →
      b'.drifters.length = b.drifters.length) := by
  constructor
  · intro nr nc hd pb db rb g b g' hnc h
    unfold mkBoard at h
    obtain ⟨l, g1, hmk, hlen, -⟩ := mkDrifters_ok nc nc.toNat g le_rfl
    rw [hmk] at h
    simp only [except_ok_bind] at h
    cases hdiv : pydiv (pb * 100) (nr : ℚ) with
    | error e => rw [hdiv] at h; exact absurd h (by simp)
    | ok p_b =>
      rw [hdiv] at h
      simp only [except_ok_bind, except_pure_eq_ok] at h
      cases h
      simp only [hlen]
      omega
  · exact fun n b g b' g' h => stepN_drifters_length n b g b' g' h

/-- Witness for C8 on a concrete construction and a concrete advance. -/
theorem C8_drifter_count_witness :
    (0 : Int) < 2 ∧
    (∀ b g', mkBoardDefault 2 2 rngId = .ok (b, g') →
      (b.drifters.length : Int) = 2) ∧
    (∀ b' g', stepN 1 boardTwoCols rngZero = .ok (b', g') →
      b'.drifters.length = boardTwoCols.drifters.length) :=
  ⟨by decide,
    fun b g' h => C8_drifter_count.1 2 2 default_hue_diff default_p_brightness
      default_down_bias default_right_bias rngId b g' (by decide) h,
    fun b' g' h => C8_drifter_count.2 1 boardTwoCols rngZero b' g' h⟩

theorem setCell_eq {b : Board} (row col : Int) (v : Option CoralCell)
    (hsh : ShapeOK b) (hr0 : 0 ≤ row) (hr1 : row < b.nb_rows)
    (hc0 : 0 ≤ col) (hc1 : col < b.nb_cols) :
    setCell b.cells row col v = .ok (gridWrite b.cells row col v) := by
  obtain ⟨hclen, hrlen⟩ := hsh
  have hrow : row < (b.cells.length : Int) := by rw [hclen]; omega
  obtain ⟨hlt, hget⟩ := pyGet_eq_ok hr0 hrow
  have hrmem : b.cells.get ⟨row.toNat, hlt⟩ ∈ b.cells := List.get_mem _ _ _
  have hrl : (b.cells.get ⟨row.toNat, hlt⟩).length = b.nb_cols.toNat :=
    hrlen _ hrmem
  have hcol : col < ((b.cells.get ⟨row.toNat, hlt⟩).length : Int) := by
    rw [hrl]; omega
  unfold setCell
  rw [hget]
  simp only [except_ok_bind]
  rw [pySet_eq_ok hc0 hcol]
  simp only [except_ok_bind]
  have hrow2 : row < (b.cells.length : Int) := hrow
  rw [pySet_eq_ok hr0 hrow2]
  unfold gridWrite
  rw [List.get?_eq_get hlt]

theorem make_drifter_eq (b : Board) (g : Rng) (h : 0 < b.nb_cols) :
    b.make_drifter g = .ok ((0, (g.nats g.idx : Int) % b.nb_cols), g.next) := by
  unfold Board.make_drifter
  rw [@randrange_eq_ok 0 b.nb_cols g h]
  simp

theorem make_drifter_bounds (b : Board) (g : Rng) (h : 0 < b.nb_cols) :
    0 ≤ (g.nats g.idx : Int) % b.nb_cols ∧
      (g.nats g.idx : Int) % b.nb_cols < b.nb_cols :=
  @pymod_pos_bounds (g.nats g.idx : Int) b.nb_cols h

theorem get_random_hue_eq (g : Rng) :
    get_random_hue g =
      .ok ((-60 + (g.nats g.idx : Int) % 260) % 360, g.next) := by
  unfold get_random_hue
  rw [@randrange_eq_ok (-60) 200 g (by omega)]
  simp only [except_ok_bind]
  rw [pymod_pos_eq (by omega : (0 : Int) < 360)]
  norm_num

theorem get_child_ok_facts {c c' : CoralCell} {hd : Int} {p : ℚ} {g g' : Rng}
    (h : c.get_child hd p g = .ok (c', g')) :
    (0 ≤ c'.hue ∧ c'.hue < 360) ∧
    (c'.brightness = c.brightness ∨
      (c.brightness < 100 ∧ c'.brightness = c.brightness + 1)) := by
  unfold CoralCell.get_child Rng.randrange at h
  split at h
  · exact absurd h (by simp)
  · simp only [except_ok_bind] at h
    rw [pymod_pos_eq (by omega : (0 : Int) < 360)] at h
    simp only [except_ok_bind] at h
    have hbnd := @pymod_pos_bounds
      (c.hue + (-hd + (g.nats g.idx : Int) % (hd + 1 - -hd)))
      360 (by omega)
    by_cases hbr : c.brightness < 100
    · rw [if_pos hbr] at h
      simp only [Rng.random] at h
      by_cases hu : g.fracs (g.idx + 1) < p
      · rw [Rng.next] at h
        simp only at h
        rw [if_pos (by simpa using hu)] at h
        simp only [except_pure_eq_ok] at h
        cases h
        exact ⟨⟨hbnd.1, hbnd.2⟩, Or.inr ⟨hbr, rfl⟩⟩
      · rw [Rng.next] at h
        simp only at h
        rw [if_neg (by simpa using hu)] at h
        simp only [except_pure_eq_ok] at h
        cases h
        exact ⟨⟨hbnd.1, hbnd.2⟩, Or.inl rfl⟩
    · rw [if_neg hbr] at h
      simp only [except_pure_eq_ok] at h
      cases h
      exact ⟨⟨hbnd.1, hbnd.2⟩, Or.inl rfl⟩

theorem drift_ok (b : Board) (row col : Int) (g : Rng)
    (hr0 : 0 ≤ row) (hr1 : row < b.nb_rows) (hc0 : 0 ≤ col)
    (hc1 : col < b.nb_cols) :
    ∃ d g2, b.drift row col g = .ok (d, g2) ∧
      0 ≤ d.1 ∧ d.1 < b.nb_rows ∧ 0 ≤ d.2 ∧ d.2 < b.nb_cols := by
  have hncols : (0 : Int) < b.nb_cols := by omega
  have hb1 := @pymod_pos_bounds (col + 1) b.nb_cols hncols
  have hb2 := @pymod_pos_bounds (col - 1) b.nb_cols hncols
  have hpm1 : pymod (col + 1) b.nb_cols = .ok ((col + 1) % b.nb_cols) :=
    pymod_pos_eq hncols
  have hpm2 : pymod (col - 1) b.nb_cols = .ok ((col - 1) % b.nb_cols) :=
    pymod_pos_eq hncols
  unfold Board.drift
  simp only [Rng.random]
  by_cases h1 : row < b.nb_rows - 1
  · by_cases h2 : g.fracs g.idx < b.p_down
    · exact ⟨(row + 1, col), g.next, by simp [h1, h2], by omega, by omega,
        hc0, hc1⟩
    · by_cases h3 : row > 0
      · by_cases h4 : g.next.fracs g.next.idx < (333 : ℚ) / 1000
        · exact ⟨(row - 1, col), g.next.next, by simp [h1, h2, h3, h4],
            by omega, by omega, hc0, hc1⟩
        · by_cases h5 : g.next.next.fracs g.next.next.idx < b.p_right
          · exact ⟨(row, (col + 1) % b.nb_cols), g.next.next.next,
              by simp [h1, h2, h3, h4, h5, hpm1], hr0, hr1, hb1.1, hb1.2⟩
          · exact ⟨(row, (col - 1) % b.nb_cols), g.next.next.next,
              by simp [h1, h2, h3, h4, h5, hpm2], hr0, hr1, hb2.1, hb2.2⟩
      · by_cases h5 : g.next.fracs g.next.idx < b.p_right
        · exact ⟨(row, (col + 1) % b.nb_cols), g.next.next,
            by simp [h1, h2, h3, h5, hpm1], hr0, hr1, hb1.1, hb1.2⟩
        · exact ⟨(row, (col - 1) % b.nb_cols), g.next.next,
            by simp [h1, h2, h3, h5, hpm2], hr0, hr1, hb2.1, hb2.2⟩
  · by_cases h3 : row > 0
    · by_cases h4 : g.fracs g.idx < (333 : ℚ) / 1000
      · exact ⟨(row - 1, col), g.next, by simp [h1, h3, h4], by omega,
          by omega, hc0, hc1⟩
      · by_cases h5 : g.next.fracs g.next.idx < b.p_right
        · exact ⟨(row, (col + 1) % b.nb_cols), g.next.next,
            by simp [h1, h3, h4, h5, hpm1], hr0, hr1, hb1.1, hb1.2⟩
        · exact ⟨(row, (col - 1) % b.nb_cols), g.next.next,
            by simp [h1, h3, h4, h5, hpm2], hr0, hr1, hb2.1, hb2.2⟩
    · by_cases h5 : g.fracs g.idx < b.p_right
      · exact ⟨(row, (col + 1) % b.nb_cols), g.next,
          by simp [h1, h3, h5, hpm1], hr0, hr1, hb1.1, hb1.2⟩
      · exact ⟨(row, (col - 1) % b.nb_cols), g.next,
          by simp [h1, h3, h5, hpm2], hr0, hr1, hb2.1, hb2.2⟩

/-- C4: the single-drifter step on a valid board: with a coral
neighbour present it writes that neighbour's derived child at
(row,col), sets `done` when `row = 0` (otherwise leaves it), and
returns a fresh drifter `(0, random column)`; with no neighbour on the
last row it writes a brand-new root (hue a uniform value of `[-60,200)`
mod 360, brightness 0) and returns a fresh drifter; otherwise it
mutates nothing and returns the drift move. -/
theorem C4_drifter_step (b : Board) (row col : Int) (g : Rng)
    (hsh : ShapeOK b) (hhd : 0 ≤ b.hue_diff)
    (hr0 : 0 ≤ row) (hr1 : row < b.nb_rows) (hc0 : 0 ≤ col)
    (hc1 : col < b.nb_cols) :
    (∀ (n : CoralCell) (g1 : Rng),
      b.get_coral_neighbour row col g = .ok (some n, g1) →
      ∃ child g2 colf,
        n.get_child b.hue_diff b.p_brightness g1 = .ok (child, g2) ∧
        0 ≤ colf ∧ colf < b.nb_cols ∧
        b.drifter_step row col g = .ok ((0, colf),
          { b with cells := gridWrite b.cells row col (some child),
                   done := if row = 0 then true else b.done }, g2.next)) ∧
    (∀ g1 : Rng, b.get_coral_neighbour row col g = .ok (none, g1) →
      (row = b.nb_rows - 1 →
        ∃ v colf, -60 ≤ v ∧ v < 200 ∧ 0 ≤ colf ∧ colf < b.nb_cols ∧
          b.drifter_step row col g = .ok ((0, colf),
            { b with cells := gridWrite b.cells row col (some ⟨v % 360, 0⟩) },
            g1.next.next)) ∧
      (row ≠ b.nb_rows - 1 →
        ∃ d g2, b.drift row col g1 = .ok (d, g2) ∧
          b.drifter_step row col g = .ok (d, b, g2))) := by
  have hbc : (0 : Int) < b.nb_cols := by omega
  constructor
  · intro n g1 hlook
    have hchild := get_child_eq n b.hue_diff b.p_brightness g1 hhd
    refine ⟨_, _, _, hchild,
      (@pymod_pos_bounds
        ((if n.brightness < 100 then g1.next.next else g1.next).nats
          (if n.brightness < 100 then g1.next.next else g1.next).idx : Int)
        b.nb_cols hbc).1,
      (@pymod_pos_bounds _ b.nb_cols hbc).2, ?_⟩
    unfold Board.drifter_step
    rw [hlook]
    simp only [except_ok_bind]
    rw [hchild]
    simp only [except_ok_bind]
    rw [setCell_eq row col _ hsh hr0 hr1 hc0 hc1]
    simp only [except_ok_bind]
    have hneg : ¬ (b.nb_cols ≤ 0) := by omega
    simp [Board.make_drifter, Rng.randrange, hneg]
  · intro g1 hlook
    constructor
    · intro hlast
      have hhue := get_random_hue_eq g1
      have hvb := @pymod_pos_bounds (g1.nats g1.idx : Int) 260 (by omega)
      refine ⟨-60 + (g1.nats g1.idx : Int) % 260,
        (g1.next.nats g1.next.idx : Int) % b.nb_cols,
        by omega, by omega,
        (@pymod_pos_bounds _ b.nb_cols hbc).1,
        (@pymod_pos_bounds _ b.nb_cols hbc).2, ?_⟩
      unfold Board.drifter_step
      rw [hlook]
      simp only [except_ok_bind]
      rw [if_pos hlast, hhue]
      simp only [except_ok_bind]
      rw [setCell_eq row col _ hsh hr0 hr1 hc0 hc1]
      simp only [except_ok_bind]
      have hneg : ¬ (b.nb_cols ≤ 0) := by omega
      simp [Board.make_drifter, Rng.randrange, hneg]
    · intro hnotlast
      obtain ⟨d, g2, hdr, -⟩ := drift_ok b row col g1 hr0 hr1 hc0 hc1
      refine ⟨d, g2, hdr, ?_⟩
      unfold Board.drifter_step
      rw [hlook]
      simp only [except_ok_bind]
      rw [if_neg hnotlast, hdr]
      simp only [except_ok_bind, except_pure_eq_ok]

/-- Witness for C4: the settle branch applied on `boardTwoCols` at
(0,0), whose lookup concretely returns the vertical neighbour. -/
theorem C4_drifter_step_witness :
    ∃ child g2 colf,
      CoralCell.get_child ⟨10, 5⟩ boardTwoCols.hue_diff
        boardTwoCols.p_brightness rngZero.next = .ok (child, g2) ∧
      0 ≤ colf ∧ colf < boardTwoCols.nb_cols ∧
      boardTwoCols.drifter_step 0 0 rngZero = .ok ((0, colf),
        { boardTwoCols with
            cells := gridWrite boardTwoCols.cells 0 0 (some child),
            done := if (0 : Int) = 0 then true else boardTwoCols.done },
        g2.next) :=
  (C4_drifter_step boardTwoCols 0 0 rngZero (by decide) (by decide)
    (by decide) (by decide) (by decide) (by decide)).1 ⟨10, 5⟩ rngZero.next
    (by with_unfolding_all rfl)

theorem mem_appendIfSome {c : CoralCell} {l : List CoralCell}
    {oc : Option CoralCell} (h : c ∈ appendIfSome l oc) :
    c ∈ l ∨ oc = some c := by
  cases oc with
  | none => exact Or.inl h
  | some x =>
    rcases List.mem_append.mp h with h1 | h1
    · exact Or.inl h1
    · simp at h1
      exact Or.inr (by rw [h1])

theorem cellsOK_write {cells : List (List (Option CoralCell))} {row col : Int}
    {v : CoralCell}
    (h : ∀ r ∈ cells, ∀ oc ∈ r, ∀ c : CoralCell, oc = some c → CellOK c)
    (hv : CellOK v) :
    ∀ r ∈ gridWrite cells row col (some v), ∀ oc ∈ r,
      ∀ c : CoralCell, oc = some c → CellOK c := by
  unfold gridWrite
  cases hq : cells.get? row.toNat with
  | none => exact h
  | some r0 =>
    intro r hr oc hoc c hceq
    rcases List.mem_or_eq_of_mem_set hr with hr1 | hr1
    · exact h r hr1 oc hoc c hceq
    · subst hr1
      rcases List.mem_or_eq_of_mem_set hoc with ho1 | ho1
      · exact h r0 (List.get?_mem hq) oc ho1 c hceq
      · subst ho1; cases hceq; exact hv

theorem shape_gridWrite {b : Board} (hsh : ShapeOK b) (row col : Int)
    (v : Option CoralCell) :
    (gridWrite b.cells row col v).length = b.nb_rows.toNat ∧
    ∀ r ∈ gridWrite b.cells row col v, r.length = b.nb_cols.toNat := by
  obtain ⟨hclen, hrlen⟩ := hsh
  unfold gridWrite
  cases hq : b.cells.get? row.toNat with
  | none => exact ⟨hclen, hrlen⟩
  | some r0 =>
    refine ⟨by simp [hclen], ?_⟩
    intro r hr
    rcases List.mem_or_eq_of_mem_set hr with hr1 | hr1
    · exact hrlen r hr1
    · subst hr1
      simp [hrlen r0 (List.get?_mem hq)]

theorem get_coral_neighbour_ok (b : Board) (row col : Int) (g : Rng)
    (hsh : ShapeOK b) (hr0 : 0 ≤ row) (hr1 : row < b.nb_rows)
    (hc0 : 0 ≤ col) (hc1 : col < b.nb_cols) :
    ∃ res g1, b.get_coral_neighbour row col g = .ok (res, g1) ∧
      ∀ c : CoralCell, res = some c → cellInGrid b c := by
  have hnl := neighbour_list_eq b row col hsh hr0 hr1 hc0 hc1
  have hmem : ∀ c ∈ appendIfSome (appendIfSome (appendIfSome (appendIfSome []
        (if 0 < row then entryAt b (row - 1) col else none))
        (if row < b.nb_rows - 1 then entryAt b (row + 1) col else none))
        (entryAt b row ((col - 1) % b.nb_cols)))
        (entryAt b row ((col + 1) % b.nb_cols)), cellInGrid b c := by
    intro c hc
    rcases mem_appendIfSome hc with hc2 | hc2
    · rcases mem_appendIfSome hc2 with hc3 | hc3
      · rcases mem_appendIfSome hc3 with hc4 | hc4
        · rcases mem_appendIfSome hc4 with hc5 | hc5
          · simp at hc5
          · split at hc5
            · exact entryAt_mem hc5
            · exact absurd hc5 (by simp)
        · split at hc4
          · exact entryAt_mem hc4
          · exact absurd hc4 (by simp)
      · exact entryAt_mem hc3
    · exact entryAt_mem hc2
  generalize hx : appendIfSome (appendIfSome (appendIfSome (appendIfSome []
      (if 0 < row then entryAt b (row - 1) col else none))
      (if row < b.nb_rows - 1 then entryAt b (row + 1) col else none))
      (entryAt b row ((col - 1) % b.nb_cols)))
      (entryAt b row ((col + 1) % b.nb_cols)) = ns at hnl hmem
  cases ns with
  | nil =>
    exact ⟨none, g, get_coral_neighbour_nil g hnl, by simp⟩
  | cons x xs =>
    refine ⟨some ((x :: xs).get ⟨g.nats g.idx % (x :: xs).length,
        Nat.mod_lt _ (Nat.succ_pos _)⟩), g.next,
      get_coral_neighbour_cons g hnl, ?_⟩
    intro c hc
    cases hc
    exact hmem _ (List.get_mem _ _ _)

theorem drifter_step_safe (b : Board) (row col : Int) (g : Rng)
    (hnr : 0 < b.nb_rows) (hnc : 0 < b.nb_cols) (hhd : 0 ≤ b.hue_diff)
    (hsh : ShapeOK b) (hG : GridOK b)
    (hr0 : 0 ≤ row) (hr1 : row < b.nb_rows) (hc0 : 0 ≤ col)
    (hc1 : col < b.nb_cols) :
    ∃ d b' g', b.drifter_step row col g = .ok (d, b', g') ∧
      b'.nb_rows = b.nb_rows ∧ b'.nb_cols = b.nb_cols ∧
      b'.hue_diff = b.hue_diff ∧ b'.drifters = b.drifters ∧
      b'.step_nb = b.step_nb ∧ b'.p_brightness = b.p_brightness ∧
      b'.p_down = b.p_down ∧ b'.p_right = b.p_right ∧
      ShapeOK b' ∧ GridOK b' ∧
      0 ≤ d.1 ∧ d.1 < b.nb_rows ∧ 0 ≤ d.2 ∧ d.2 < b.nb_cols := by
  have hneg : ¬ (b.nb_cols ≤ 0) := by omega
  obtain ⟨res, g1, hlook, hresmem⟩ :=
    get_coral_neighbour_ok b row col g hsh hr0 hr1 hc0 hc1
  cases res with
  | some n =>
    have hnOK : CellOK n := by
      obtain ⟨r, hrmem, hcmem⟩ := hresmem n rfl
      exact hG r hrmem (some n) hcmem n rfl
    cases hgc : n.get_child b.hue_diff b.p_brightness g1 with
    | error e =>
      rw [get_child_eq n b.hue_diff b.p_brightness g1 hhd] at hgc
      exact absurd hgc (by simp)
    | ok t =>
      obtain ⟨child, g2⟩ := t
      have hfacts := get_child_ok_facts hgc
      have hchildOK : CellOK child := by
        obtain ⟨⟨hh0, hh1⟩, hbr⟩ := hfacts
        obtain ⟨-, -, hb0, hb1⟩ := hnOK
        rcases hbr with heq | ⟨hlt, heq⟩ <;>
          exact ⟨hh0, hh1, by omega, by omega⟩
      have hstep : b.drifter_step row col g =
          .ok ((0, (g2.nats g2.idx : Int) % b.nb_cols),
            { b with cells := gridWrite b.cells row col (some child),
                     done := if row = 0 then true else b.done }, g2.next) := by
        unfold Board.drifter_step
        rw [hlook]
        simp only [except_ok_bind]
        rw [hgc]
        simp only [except_ok_bind]
        rw [setCell_eq row col _ hsh hr0 hr1 hc0 hc1]
        simp only [except_ok_bind]
        simp [Board.make_drifter, Rng.randrange, hneg]
      have hmb := @pymod_pos_bounds (g2.nats g2.idx : Int) b.nb_cols hnc
      exact ⟨_, _, _, hstep, rfl, rfl, rfl, rfl, rfl, rfl, rfl, rfl,
        ⟨(shape_gridWrite hsh row col _).1, (shape_gridWrite hsh row col _).2⟩,
        cellsOK_write hG hchildOK,
        le_refl 0, hnr, hmb.1, hmb.2⟩
  | none =>
    by_cases hlast : row = b.nb_rows - 1
    · have hvb := @pymod_pos_bounds (g1.nats g1.idx : Int) 260 (by omega)
      have hhb := @pymod_pos_bounds (-60 + (g1.nats g1.idx : Int) % 260) 360
        (by omega)
      have hstep : b.drifter_step row col g =
          .ok ((0, (g1.next.nats g1.next.idx : Int) % b.nb_cols),
            { b with
                cells := gridWrite b.cells row col
                  (some ⟨(-60 + (g1.nats g1.idx : Int) % 260) % 360, 0⟩) },
            g1.next.next) := by
        unfold Board.drifter_step
        rw [hlook]
        simp only [except_ok_bind]
        rw [if_pos hlast, get_random_hue_eq g1]
        simp only [except_ok_bind]
        rw [setCell_eq row col _ hsh hr0 hr1 hc0 hc1]
        simp only [except_ok_bind]
        simp [Board.make_drifter, Rng.randrange, hneg]
      have hrootOK : CellOK ⟨(-60 + (g1.nats g1.idx : Int) % 260) % 360, 0⟩ := by
        unfold CellOK
        dsimp only
        exact ⟨hhb.1, hhb.2, by norm_num, by norm_num⟩
      have hmb := @pymod_pos_bounds (g1.next.nats g1.next.idx : Int) b.nb_cols hnc
      exact ⟨_, _, _, hstep, rfl, rfl, rfl, rfl, rfl, rfl, rfl, rfl,
        ⟨(shape_gridWrite hsh row col _).1, (shape_gridWrite hsh row col _).2⟩,
        cellsOK_write hG hrootOK,
        le_refl 0, hnr, hmb.1, hmb.2⟩
    · obtain ⟨d, g2, hdr, hd0, hd1, hd2, hd3⟩ :=
        drift_ok b row col g1 hr0 hr1 hc0 hc1
      have hstep : b.drifter_step row col g = .ok (d, b, g2) := by
        unfold Board.drifter_step
        rw [hlook]
        simp only [except_ok_bind]
        rw [if_neg hlast, hdr]
        simp only [except_ok_bind, except_pure_eq_ok]
      exact ⟨_, _, _, hstep, rfl, rfl, rfl, rfl, rfl, rfl, rfl, rfl,
        hsh, hG, hd0, hd1, hd2, hd3⟩

theorem stepDrifters_safe : ∀ (ds : List (Int × Int)) (b : Board) (g : Rng),
    0 < b.nb_rows → 0 < b.nb_cols → 0 ≤ b.hue_diff → ShapeOK b → GridOK b →
    (∀ d ∈ ds, 0 ≤ d.1 ∧ d.1 < b.nb_rows ∧ 0 ≤ d.2 ∧ d.2 < b.nb_cols) →
    ∃ ds' b' g', stepDrifters b ds g = .ok (ds', b', g') ∧
      b'.nb_rows = b.nb_rows ∧ b'.nb_cols = b.nb_cols ∧
      b'.hue_diff = b.hue_diff ∧ b'.drifters = b.drifters ∧
      b'.step_nb = b.step_nb ∧ ShapeOK b' ∧ GridOK b' ∧
      (∀ d ∈ ds', 0 ≤ d.1 ∧ d.1 < b.nb_rows ∧ 0 ≤ d.2 ∧ d.2 < b.nb_cols) := by
  intro ds
  induction ds with
  | nil =>
    intro b g h1 h2 h3 h4 h5 _
    exact ⟨[], b, g, rfl, rfl, rfl, rfl, rfl, rfl, h4, h5, by simp⟩
  | cons d rest ih =>
    intro b g h1 h2 h3 h4 h5 h6
    obtain ⟨rr, cc⟩ := d
    obtain ⟨hd1, hd2, hd3, hd4⟩ := h6 (rr, cc) (List.mem_cons_self _ _)
    obtain ⟨d1, b1, g1, hstep, e1, e2, e3, e4, e5, e6, e7, e8, hsh1, hG1,
      hb1, hb2, hb3, hb4⟩ :=
      drifter_step_safe b rr cc g h1 h2 h3 h4 h5 hd1 hd2 hd3 hd4
    have hrest : ∀ d ∈ rest,
        0 ≤ d.1 ∧ d.1 < b1.nb_rows ∧ 0 ≤ d.2 ∧ d.2 < b1.nb_cols := by
      intro d hd
      obtain ⟨x1, x2, x3, x4⟩ := h6 d (List.mem_cons_of_mem _ hd)
      exact ⟨x1, by rw [e1]; exact x2, x3, by rw [e2]; exact x4⟩
    obtain ⟨ds1, b2, g2, hsteps, f1, f2, f3, f4, f5, hsh2, hG2, hbs⟩ :=
      ih b1 g1 (by rw [e1]; exact h1) (by rw [e2]; exact h2)
        (by rw [e3]; exact h3) hsh1 hG1 hrest
    refine ⟨d1 :: ds1, b2, g2, ?_, by rw [f1, e1], by rw [f2, e2],
      by rw [f3, e3], by rw [f4, e4], by rw [f5, e5], hsh2, hG2, ?_⟩
    · unfold stepDrifters
      rw [hstep]
      simp only [except_ok_bind]
      rw [hsteps]
      simp only [except_ok_bind, except_pure_eq_ok]
    · intro d hd
      rcases List.mem_cons.mp hd with h | h
      · subst h; exact ⟨hb1, hb2, hb3, hb4⟩
      · obtain ⟨x1, x2, x3, x4⟩ := hbs d h
        exact ⟨x1, by rw [← e1]; exact x2, x3, by rw [← e2]; exact x4⟩

theorem step_safe (b : Board) (g : Rng) (hInv : BoardInv b) (hG : GridOK b) :
    ∃ b' g', b.step g = .ok (b', g') ∧ BoardInv b' ∧ GridOK b' ∧
      b'.nb_rows = b.nb_rows ∧ b'.nb_cols = b.nb_cols := by
  obtain ⟨h1, h2, h3, h4, h5⟩ := hInv
  obtain ⟨ds', b', g', hsd, e1, e2, e3, e4, e5, hsh', hG', hbs⟩ :=
    stepDrifters_safe b.drifters { b with step_nb := b.step_nb + 1 } g
      h1 h2 h3 h4 hG h5
  refine ⟨{ b' with drifters := ds' }, g', ?_, ?_, hG', e1, e2⟩
  · rw [step_eq, hsd]
    rfl
  · refine ⟨by rw [e1]; exact h1, by rw [e2]; exact h2, by rw [e3]; exact h3,
      hsh', ?_⟩
    intro d hd
    obtain ⟨x1, x2, x3, x4⟩ := hbs d hd
    exact ⟨x1, by rw [e1]; exact x2, x3, by rw [e2]; exact x4⟩

theorem mkBoard_gridOK (nr nc hd : Int) (pb db rb : ℚ) (g : Rng)
    (b : Board) (g' : Rng) (h : mkBoard nr nc hd pb db rb g = .ok (b, g')) :
    GridOK b := by
  unfold mkBoard at h
  obtain ⟨l, g1, hmk, hlen, hall⟩ := mkDrifters_ok nc nc.toNat g le_rfl
  rw [hmk] at h
  simp only [except_ok_bind] at h
  cases hdiv : pydiv (pb * 100) (nr : ℚ) with
  | error e => rw [hdiv] at h; exact absurd h (by simp)
  | ok q =>
    rw [hdiv] at h
    simp only [except_ok_bind, except_pure_eq_ok] at h
    cases h
    intro r hr oc hoc c hceq
    have hre := List.eq_of_mem_replicate hr
    subst hre
    have hoe := List.eq_of_mem_replicate hoc
    subst hoe
    exact absurd hceq (by simp)

theorem mkBoard_safe (nr nc hd : Int) (pb db rb : ℚ) (g : Rng)
    (b : Board) (g' : Rng) (hnr : 0 < nr) (hnc : 0 < nc) (hhd : 0 ≤ hd)
    (h : mkBoard nr nc hd pb db rb g = .ok (b, g')) :
    BoardInv b := by
  unfold mkBoard at h
  obtain ⟨l, g1, hmk, hlen, hall⟩ := mkDrifters_ok nc nc.toNat g le_rfl
  rw [hmk] at h
  simp only [except_ok_bind] at h
  cases hdiv : pydiv (pb * 100) (nr : ℚ) with
  | error e => rw [hdiv] at h; exact absurd h (by simp)
  | ok q =>
    rw [hdiv] at h
    simp only [except_ok_bind, except_pure_eq_ok] at h
    cases h
    refine ⟨hnr, hnc, hhd, ⟨by simp, ?_⟩, ?_⟩
    · intro r hr
      simp [List.eq_of_mem_replicate hr]
    · intro d hd2
      obtain ⟨hd0, hdc1, hdc2⟩ := hall d hd2
      refine ⟨by omega, ?_, hdc1, hdc2⟩
      show d.1 < nr
      omega

theorem print_cell_ok (b : Board) (row col : Int) (hsh : ShapeOK b)
    (hr0 : 0 ≤ row) (hr1 : row < (b.nb_rows.toNat : Int)) (hc0 : 0 ≤ col)
    (hc1 : col < (b.nb_cols.toNat : Int)) :
    ∃ ch, b.print_cell row col = .ok ch := by
  obtain ⟨hclen, hrlen⟩ := hsh
  unfold Board.print_cell
  by_cases hd : b.drifters.contains (row, col)
  · exact ⟨'.', by rw [if_pos hd]⟩
  · rw [if_neg hd]
    have hrow : row < (b.cells.length : Int) := by rw [hclen]; omega
    obtain ⟨hlt, hget⟩ := pyGet_eq_ok hr0 hrow
    rw [hget]
    simp only [except_ok_bind]
    have hrl : (b.cells.get ⟨row.toNat, hlt⟩).length = b.nb_cols.toNat :=
      hrlen _ (List.get_mem _ _ _)
    have hcol : col < ((b.cells.get ⟨row.toNat, hlt⟩).length : Int) := by
      rw [hrl]; omega
    obtain ⟨hlt2, hget2⟩ := pyGet_eq_ok hc0 hcol
    rw [hget2]
    simp only [except_ok_bind]
    cases (b.cells.get ⟨row.toNat, hlt⟩).get ⟨col.toNat, hlt2⟩ with
    | none => exact ⟨' ', rfl⟩
    | some c => exact ⟨'#', rfl⟩

theorem exceptMapM_ok {α β : Type} (f : α → Except Err β) :
    ∀ l : List α, (∀ a ∈ l, ∃ b, f a = .ok b) →
    ∃ bs, exceptMapM f l = .ok bs := by
  intro l
  induction l with
  | nil => exact fun _ => ⟨[], rfl⟩
  | cons a as ih =>
    intro h
    obtain ⟨b, hb⟩ := h a (List.mem_cons_self _ _)
    obtain ⟨bs, hbs⟩ := ih fun x hx => h x (List.mem_cons_of_mem _ hx)
    refine ⟨b :: bs, ?_⟩
    unfold exceptMapM
    rw [hb]
    simp only [except_ok_bind]
    rw [hbs]
    simp only [except_ok_bind, except_pure_eq_ok]

theorem render_text_safe (b : Board) (hsh : ShapeOK b) :
    ∃ t, b.render_text = .ok t := by
  unfold Board.render_text
  apply exceptMapM_ok
  intro r hr
  apply exceptMapM_ok
  intro c hc
  have hrn := List.mem_range.mp hr
  have hcn := List.mem_range.mp hc
  exact print_cell_ok b r c hsh (by positivity) (by exact_mod_cast hrn)
    (by positivity) (by exact_mod_cast hcn)

/-- C7: every constructed grid is trivially within range (empty); every
advance sequence on a valid board keeps all settled cells with hue in
`[0, 360)` and brightness in `[0, 100]`; and one derive-child step
either keeps the parent brightness or, only while below 100, adds
exactly one — so brightness is non-decreasing along any
parent-to-child chain and can never pass 100. -/
theorem C7_cell_invariants :
    (∀ (nr nc hd : Int) (pb db rb : ℚ) (g : Rng) (b : Board) (g' : Rng),
      mkBoard nr nc hd pb db rb g = .ok (b, g') → GridOK b) ∧
    (∀ (n : Nat) (b : Board) (g : Rng) (b' : Board) (g' : Rng),
      BoardInv b → GridOK b → stepN n b g = .ok (b', g') → GridOK b') ∧
    (∀ (c : CoralCell) (hd : Int) (p : ℚ) (g : Rng) (c' : CoralCell)
      (g' : Rng), c.get_child hd p g = .ok (c', g') →
      (0 ≤ c'.hue ∧ c'.hue < 360) ∧
      (c'.brightness = c.brightness ∨
        (c.brightness < 100 ∧ c'.brightness = c.brightness + 1))) := by
  refine ⟨?_, ?_, ?_⟩
  · exact fun nr nc hd pb db rb g b g' h => mkBoard_gridOK nr nc hd pb db rb g b g' h
  · intro n
    induction n with
    | zero =>
      intro b g b' g' hInv hG h
      cases h
      exact hG
    | succ n ih =>
      intro b g b' g' hInv hG h
      unfold stepN at h
      obtain ⟨b1, g1, hok, hInv1, hG1, -, -⟩ := step_safe b g hInv hG
      rw [hok] at h
      simp only [except_ok_bind] at h
      exact ih b1 g1 b' g' hInv1 hG1 h
  · exact fun c hd p g c' g' h => get_child_ok_facts h

/-- Witness for C7: the derive-child clause at a concrete run, whose
child has hue 8 and brightness 6 = 5 + 1. -/
theorem C7_cell_invariants_witness :
    CoralCell.get_child ⟨10, 5⟩ 2 (1/2) rngZero =
      .ok (⟨8, 6⟩, rngZero.next.next) ∧
    ((0 ≤ (8 : Int) ∧ (8 : Int) < 360) ∧
      ((6 : Int) = 5 ∨ ((5 : Int) < 100 ∧ (6 : Int) = 5 + 1))) :=
  ⟨by with_unfolding_all rfl,
    C7_cell_invariants.2.2 ⟨10, 5⟩ 2 (1/2) rngZero ⟨8, 6⟩ rngZero.next.next
      (by with_unfolding_all rfl)⟩

/-- C9 (amended): under valid construction with `nb_rows > 0`,
`nb_cols > 0` and additionally `hue_diff ≥ 0`, the board satisfies the
safety invariant (well-shaped grid, in-bounds drifters), every advance
— single or iterated — succeeds and preserves it, and the textual
render succeeds: the error branch of the embedding is unreachable.
(The extra `hue_diff ≥ 0` premise is forced by `C9_counterexample`:
with a negative spread a settle reaches an empty `randrange`.) -/
theorem C9_safety :
    (∀ (nr nc hd : Int) (pb db rb : ℚ) (g : Rng) (b : Board) (g' : Rng),
      0 < nr → 0 < nc → 0 ≤ hd →
      mkBoard nr nc hd pb db rb g = .ok (b, g') → BoardInv b ∧ GridOK b) ∧
    (∀ (b : Board) (g : Rng), BoardInv b → GridOK b →
      ∃ b' g', b.step g = .ok (b', g') ∧ BoardInv b' ∧ GridOK b') ∧
    (∀ (n : Nat) (b : Board) (g : Rng), BoardInv b → GridOK b →
      ∃ b' g', stepN n b g = .ok (b', g') ∧ BoardInv b' ∧ GridOK b') ∧
    (∀ b : Board, BoardInv b → ∃ t, b.render_text = .ok t) := by
  refine ⟨?_, ?_, ?_, ?_⟩
  · intro nr nc hd pb db rb g b g' hnr hnc hhd h
    exact ⟨mkBoard_safe nr nc hd pb db rb g b g' hnr hnc hhd h,
      mkBoard_gridOK nr nc hd pb db rb g b g' h⟩
  · intro b g hInv hG
    obtain ⟨b', g', hok, hInv', hG', -, -⟩ := step_safe b g hInv hG
    exact ⟨b', g', hok, hInv', hG'⟩
  · intro n
    induction n with
    | zero => exact fun b g hInv hG => ⟨b, g, rfl, hInv, hG⟩
    | succ n ih =>
      intro b g hInv hG
      obtain ⟨b1, g1, hok, hInv1, hG1, -, -⟩ := step_safe b g hInv hG
      obtain ⟨b', g', hok2, hInv', hG'⟩ := ih b1 g1 hInv1 hG1
      refine ⟨b', g', ?_, hInv', hG'⟩
      unfold stepN
      rw [hok]
      simp only [except_ok_bind]
      exact hok2
  · exact fun b hInv => render_text_safe b hInv.2.2.2.1

/-- Witness for C9: the step clause applied to a concrete safe board. -/
theorem C9_safety_witness :
    BoardInv boardTwoCols ∧ GridOK boardTwoCols ∧
    ∃ b' g', boardTwoCols.step rngZero = .ok (b', g') ∧
      BoardInv b' ∧ GridOK b' :=
  ⟨by decide, by decide,
    C9_safety.2.1 boardTwoCols rngZero (by decide) (by decide)⟩

theorem mk1x1_eq (g : Rng) :
    mkBoardDefault 1 1 g = .ok (board1x1init, g.next) := by
  unfold mkBoardDefault mkBoard default_hue_diff default_p_brightness
    default_down_bias default_right_bias
  have h1 : g.randrange 0 1 = .ok (0 + (g.nats g.idx : Int) % (1 - 0), g.next) :=
    randrange_eq_ok g (by norm_num)
  simp only [Int.toNat_one, mkDrifters, h1, except_ok_bind, except_pure_eq_ok]
  unfold pydiv
  rw [if_neg (by norm_num)]
  simp only [except_ok_bind, except_pure_eq_ok]
  have : (0 : Int) + (g.nats g.idx : Int) % (1 - 0) = 0 := by
    simp [Int.emod_one]
  rw [this]
  unfold board1x1init
  norm_num

theorem step1x1_seed (g : Rng) :
    board1x1init.step g =
      .ok (board1x1seeded ((-60 + (g.nats g.idx : Int) % 260) % 360),
        g.next.next) := by
  have hnl : (⟨1, 1, [[none]], 0 + 1, false, [(0, 0)], 2, 80, 19/40, 1/2⟩ :
      Board).neighbour_list 0 0 = .ok [] := by
    with_unfolding_all decide
  have hds : (⟨1, 1, [[none]], 0 + 1, false, [(0, 0)], 2, 80, 19/40, 1/2⟩ :
      Board).drifter_step 0 0 g =
      .ok ((0, 0), ⟨1, 1,
          [[some ⟨(-60 + (g.nats g.idx : Int) % 260) % 360, 0⟩]],
          0 + 1, false, [(0, 0)], 2, 80, 19/40, 1/2⟩, g.next.next) := by
    unfold Board.drifter_step
    rw [get_coral_neighbour_nil g hnl]
    simp only [except_ok_bind]
    rw [if_pos (by norm_num : (0 : Int) = (1 : Int) - 1), get_random_hue_eq g]
    simp only [except_ok_bind]
    have hsc : setCell [[(none : Option CoralCell)]] 0 0
        (some ⟨(-60 + (g.nats g.idx : Int) % 260) % 360, 0⟩) =
        .ok [[some ⟨(-60 + (g.nats g.idx : Int) % 260) % 360, 0⟩]] := by
      simp [setCell, pyGet, pySet, pyIndex]
    rw [hsc]
    simp only [except_ok_bind]
    simp [Board.make_drifter, Rng.randrange, Int.emod_one]
  rw [step_eq]
  show (stepDrifters (⟨1, 1, [[none]], 0 + 1, false, [(0, 0)], 2, 80, 19/40,
      1/2⟩ : Board) [(0, 0)] g).bind _ = _
  unfold stepDrifters
  rw [hds]
  simp only [except_ok_bind]
  unfold stepDrifters
  simp only [except_ok_bind, except_pure_eq_ok, Except.bind]
  unfold board1x1seeded
  norm_num

theorem getElem_pair {α} (c : α) : ∀ (i : Nat)
    (hi : i < ([c, c] : List α).length), ([c, c] : List α)[i] = c
  | 0, _ => rfl
  | 1, _ => rfl
  | n + 2, hi => absurd hi (by simp)

theorem step1x1_settle (h : Int) (g : Rng) :
    ∃ b2 g2, (board1x1seeded h).step g = .ok (b2, g2) ∧ b2.done = true := by
  have hnl2 : (⟨1, 1, [[some ⟨h, 0⟩]], 1 + 1, false, [(0, 0)], 2, 80, 19/40,
      1/2⟩ : Board).neighbour_list 0 0 = .ok [⟨h, 0⟩, ⟨h, 0⟩] := by
    simp [Board.neighbour_list, pyGet, pyIndex, pymod, appendIfSome]
  have hlook : (⟨1, 1, [[some ⟨h, 0⟩]], 1 + 1, false, [(0, 0)], 2, 80, 19/40,
      1/2⟩ : Board).get_coral_neighbour 0 0 g = .ok (some ⟨h, 0⟩, g.next) := by
    rw [get_coral_neighbour_cons g hnl2]
    simp only [List.get_eq_getElem]
    rw [getElem_pair]
  obtain ⟨child, g2, hgc⟩ : ∃ child g2,
      CoralCell.get_child ⟨h, 0⟩ 2 80 g.next = .ok (child, g2) :=
    ⟨_, _, get_child_eq ⟨h, 0⟩ 2 80 g.next (by norm_num)⟩
  have hsc : setCell [[some (⟨h, 0⟩ : CoralCell)]] 0 0 (some child) =
      .ok [[some child]] := by
    simp [setCell, pyGet, pySet, pyIndex]
  have hds : (⟨1, 1, [[some ⟨h, 0⟩]], 1 + 1, false, [(0, 0)], 2, 80, 19/40,
      1/2⟩ : Board).drifter_step 0 0 g =
      .ok ((0, 0), ⟨1, 1, [[some child]], 1 + 1, true, [(0, 0)], 2, 80, 19/40,
        1/2⟩, g2.next) := by
    unfold Board.drifter_step
    rw [hlook]
    simp only [except_ok_bind]
    rw [hgc]
    simp only [except_ok_bind]
    rw [hsc]
    simp only [except_ok_bind]
    simp [Board.make_drifter, Rng.randrange, Int.emod_one]
  refine ⟨⟨1, 1, [[some child]], 1 + 1, true, [(0, 0)], 2, 80, 19/40, 1/2⟩,
    g2.next, ?_, rfl⟩
  rw [step_eq]
  show (stepDrifters (⟨1, 1, [[some ⟨h, 0⟩]], 1 + 1, false, [(0, 0)], 2, 80,
      19/40, 1/2⟩ : Board) [(0, 0)] g).bind _ = _
  unfold stepDrifters
  rw [hds]
  simp only [except_ok_bind]
  unfold stepDrifters
  simp only [except_ok_bind, except_pure_eq_ok, Except.bind]

/-- C1 (amended): on the 1×1 board the first advance necessarily seeds
a root cell (brightness 0, hue in `[0,360)`) at (0,0), but `done` is
still false afterwards — the seed branch never sets `done`; the second
advance settles onto that cell (its own wrapped horizontal neighbour)
at row 0, so `done` is true after exactly two advances, whatever the
oracle. -/
theorem C1_done_after_two (g : Rng) :
    (∃ h : Int, 0 ≤ h ∧ h < 360 ∧
      (board1x1After 1 g).map (fun p => (p.1.done, p.1.cells)) =
        .ok (false, [[some ⟨h, 0⟩]])) ∧
    (board1x1After 2 g).map (fun p => p.1.done) = .ok true := by
  have hmk := mk1x1_eq g
  have hs1 := step1x1_seed g.next
  have hhb := @pymod_pos_bounds
    (-60 + (g.next.nats g.next.idx : Int) % 260) 360 (by omega)
  constructor
  · refine ⟨(-60 + (g.next.nats g.next.idx : Int) % 260) % 360,
      hhb.1, hhb.2, ?_⟩
    unfold board1x1After
    rw [hmk]
    simp only [except_ok_bind]
    unfold stepN
    rw [hs1]
    simp only [except_ok_bind]
    unfold stepN
    simp [board1x1seeded]
  · obtain ⟨b2, g2, hs2, hdone⟩ := step1x1_settle
      ((-60 + (g.next.nats g.next.idx : Int) % 260) % 360) g.next.next.next
    unfold board1x1After
    rw [hmk]
    simp only [except_ok_bind]
    unfold stepN
    rw [hs1]
    simp only [except_ok_bind]
    unfold stepN
    rw [hs2]
    simp only [except_ok_bind]
    unfold stepN
    simp [hdone]

/-- One unfolding step of the drifter traversal. -/
theorem stepDrifters_cons (b : Board) (rr cc : Int)
    (rest : List (Int × Int)) (g : Rng) :
    stepDrifters b ((rr, cc) :: rest) g =
      (b.drifter_step rr cc g).bind fun t =>
        (stepDrifters t.2.1 rest t.2.2).bind fun t2 =>
          .ok (t.1 :: t2.1, t2.2.1, t2.2.2) := by
  conv_lhs => unfold stepDrifters
  cases hd : b.drifter_step rr cc g with
  | error e => rfl
  | ok t =>
    obtain ⟨d1, b1, g1⟩ := t
    simp only [except_ok_bind, Except.bind]
    cases h2 : stepDrifters b1 rest g1 with
    | error e => rfl
    | ok t2 =>
      obtain ⟨l2, b2, g2⟩ := t2
      rfl

/-- C3 (amended): within one advance the drifters are processed
sequentially, each against the current board state: processing
`ds1 ++ ds2` equals processing `ds1` first and then `ds2` starting
from the board (grid writes and `done` flag included) left by `ds1` —
so later-processed drifters observe the same-step writes of earlier
ones, as `C3_counterexample` exhibits concretely. -/
theorem C3_sequential (ds1 : List (Int × Int)) :
    ∀ (b : Board) (g : Rng) (ds2 : List (Int × Int)),
    stepDrifters b (ds1 ++ ds2) g =
      (stepDrifters b ds1 g).bind fun t =>
        (stepDrifters t.2.1 ds2 t.2.2).bind fun t2 =>
          .ok (t.1 ++ t2.1, t2.2.1, t2.2.2) := by
  induction ds1 with
  | nil =>
    intro b g ds2
    show stepDrifters b ds2 g = (Except.ok ([], b, g)).bind _
    simp only [Except.bind]
    cases h2 : stepDrifters b ds2 g with
    | error e => rfl
    | ok t2 =>
      obtain ⟨l2, b2, g2⟩ := t2
      simp
  | cons d rest ih =>
    intro b g ds2
    obtain ⟨rr, cc⟩ := d
    simp only [List.cons_append, stepDrifters_cons]
    cases hd : b.drifter_step rr cc g with
    | error e => simp [Except.bind]
    | ok t =>
      obtain ⟨d1, b1, g1⟩ := t
      simp only [Except.bind]
      rw [ih b1 g1 ds2]
      simp only [Except.bind]
      cases h2 : stepDrifters b1 rest g1 with
      | error e => rfl
      | ok t2 =>
        obtain ⟨l2, b2, g2⟩ := t2
        dsimp only
        cases h3 : stepDrifters b2 ds2 g2 with
        | error e => rfl
        | ok t3 =>
          obtain ⟨l3, b3, g3⟩ := t3
          simp
